import Mathlib

/-!
Verification of the CircleCI source of trufflehog
(pkg/sources/circleci/circleci.go) against its specification.

The Go code is shallowly embedded: byte slices become `List Nat`, the four
HTTP accessor calls become oracle fields of an `API` structure (each call's
outcome is a value of `Except ApiError _`), and the per-project goroutine
body of `Source.Chunks` becomes a sequential walk returning the chunks it
sent to the channel together with the errors it recorded in the aggregator.
-/

/-- The newline byte, the separator `bytes.Split`/`bytes.Join` are called
with in `removeCircleSha1Line` (the Go literal is `[]byte("\n")`). -/
def newlineByte : Nat := 10

/-- The marker token `CIRCLE_SHA1=` as a byte sequence (Go literal
`[]byte("CIRCLE_SHA1=")`). -/
def circleSha1Marker : List Nat := "CIRCLE_SHA1=".data.map Char.toNat

/-- Whether `pat` occurs at the start of the second list; embeds the
prefix test underlying `bytes.Contains`. -/
def startsWith : List Nat → List Nat → Bool
  | [], _ => true
  | _ :: _, [] => false
  | p :: ps, c :: cs => p == c && startsWith ps cs

/-- Whether `pat` occurs contiguously anywhere in the list; embeds Go's
`bytes.Contains(l, pat)`. -/
def containsSeq (pat : List Nat) : List Nat → Bool
  | [] => pat.isEmpty
  | c :: cs => startsWith pat (c :: cs) || containsSeq pat cs

/-- Embeds `bytes.Split(input, sep)` for a single-byte separator `b`:
the segments between occurrences of `b`, leading/trailing/adjacent
occurrences yielding empty segments, and `[[]]` on empty input. -/
def splitOnByte (b : Nat) : List Nat → List (List Nat)
  | [] => [[]]
  | c :: cs =>
    if c = b then
      [] :: splitOnByte b cs
    else
      match splitOnByte b cs with
      | [] => [[c]]
      | r :: rs => (c :: r) :: rs

/-- Embeds `bytes.Join(segs, sep)` for a single-byte separator `b`. -/
def joinOnByte (b : Nat) : List (List Nat) → List Nat
  | [] => []
  | [s] => s
  | s :: rest => s ++ b :: joinOnByte b rest

/-- Embeds `removeCircleSha1Line` from circleci.go: split the input on the
newline byte, keep (in order, by appending to a result accumulator) every
line that does not contain the marker, and rejoin with the newline byte. -/
def removeCircleSha1Line (input : List Nat) : List Nat :=
  let lines := splitOnByte newlineByte input
  let result := lines.foldl
    (fun acc line => if containsSeq circleSha1Marker line then acc else acc ++ [line]) []
  joinOnByte newlineByte result

/-- Modelled from the spec (for the refinement comparison in C3): the
sanitizer as literally "split on the newline boundary, drop every line
containing the marker token, rejoin with newline". -/
def sanitizeSpec (input : List Nat) : List Nat :=
  joinOnByte newlineByte
    ((splitOnByte newlineByte input).filter
      (fun line => !(containsSeq circleSha1Marker line)))

theorem splitOnByte_ne_nil (b : Nat) (l : List Nat) : splitOnByte b l ≠ [] := by
  cases l with
  | nil => simp [splitOnByte]
  | cons c cs =>
    simp only [splitOnByte]
    by_cases h : c = b
    · simp [h]
    · simp only [h, if_false]
      cases splitOnByte b cs <;> simp

theorem splitOnByte_segments_free (b : Nat) (l : List Nat) :
    ∀ seg ∈ splitOnByte b l, b ∉ seg := by
  induction l with
  | nil =>
    intro seg hseg
    simp [splitOnByte] at hseg
    simp [hseg]
  | cons c cs ih =>
    intro seg hseg
    simp only [splitOnByte] at hseg
    by_cases h : c = b
    · simp only [h, if_true] at hseg
      rcases List.mem_cons.mp hseg with h1 | h2
      · simp [h1]
      · exact ih seg h2
    · simp only [h, if_false] at hseg
      rcases hrec : splitOnByte b cs with _ | ⟨r, rs⟩
      · exact absurd hrec (splitOnByte_ne_nil b cs)
      · rw [hrec] at hseg
        rcases List.mem_cons.mp hseg with h1 | h2
        · subst h1
          intro hmem
          rcases List.mem_cons.mp hmem with h3 | h4
          · exact h h3.symm
          · exact ih r (by rw [hrec]; exact List.mem_cons_self r rs) h4
        · exact ih seg (by rw [hrec]; exact List.mem_cons_of_mem r h2)

theorem splitOnByte_of_free (b : Nat) (s : List Nat) (h : b ∉ s) :
    splitOnByte b s = [s] := by
  induction s with
  | nil => rfl
  | cons c cs ih =>
    rw [List.mem_cons] at h
    push_neg at h
    obtain ⟨h1, h2⟩ := h
    have hcb : ¬ c = b := fun e => h1 e.symm
    simp only [splitOnByte, hcb, if_false, ih h2]

theorem splitOnByte_append_delim (b : Nat) (s t : List Nat) (h : b ∉ s) :
    splitOnByte b (s ++ b :: t) = s :: splitOnByte b t := by
  induction s with
  | nil => simp [splitOnByte]
  | cons c cs ih =>
    rw [List.mem_cons] at h
    push_neg at h
    obtain ⟨h1, h2⟩ := h
    have hcb : ¬ c = b := fun e => h1 e.symm
    simp only [List.cons_append, splitOnByte, hcb, if_false, List.append_eq]
    rw [ih h2]

theorem splitOnByte_joinOnByte (b : Nat) (segs : List (List Nat))
    (hfree : ∀ s ∈ segs, b ∉ s) (hne : segs ≠ []) :
    splitOnByte b (joinOnByte b segs) = segs := by
  induction segs with
  | nil => exact absurd rfl hne
  | cons s rest ih =>
    cases rest with
    | nil =>
      simp only [joinOnByte]
      exact splitOnByte_of_free b s (hfree s (List.mem_cons_self s []))
    | cons s2 rest2 =>
      have hstep : joinOnByte b (s :: s2 :: rest2) = s ++ b :: joinOnByte b (s2 :: rest2) := rfl
      rw [hstep,
        splitOnByte_append_delim b s _ (hfree s (List.mem_cons_self s (s2 :: rest2))),
        ih (fun x hx => hfree x (List.mem_cons_of_mem s hx)) (by simp)]

theorem foldl_skip_append {α : Type} (c : α → Bool) (l : List α) (acc : List α) :
    l.foldl (fun a x => if c x then a else a ++ [x]) acc
      = acc ++ l.filter (fun x => !(c x)) := by
  induction l generalizing acc with
  | nil => simp
  | cons x xs ih =>
    cases hc : c x <;> simp [List.foldl_cons, hc, ih, List.filter_cons]

theorem removeCircleSha1Line_eq_spec (x : List Nat) :
    removeCircleSha1Line x = sanitizeSpec x := by
  simp [removeCircleSha1Line, sanitizeSpec, foldl_skip_append]

theorem marker_not_in_empty : containsSeq circleSha1Marker [] = false := by
  decide

theorem sanitize_lines (x : List Nat) :
    splitOnByte newlineByte (removeCircleSha1Line x)
      = (if ((splitOnByte newlineByte x).filter
            (fun l => !(containsSeq circleSha1Marker l))) = []
         then [[]]
         else (splitOnByte newlineByte x).filter
            (fun l => !(containsSeq circleSha1Marker l))) := by
  rw [removeCircleSha1Line_eq_spec]
  unfold sanitizeSpec
  by_cases hn : (splitOnByte newlineByte x).filter
      (fun l => !(containsSeq circleSha1Marker l)) = []
  · rw [if_pos hn, hn]
    rfl
  · rw [if_neg hn]
    refine splitOnByte_joinOnByte newlineByte _ ?_ hn
    intro s hs
    exact splitOnByte_segments_free newlineByte x s (List.mem_of_mem_filter hs)

/-- C3: the sanitizer `removeCircleSha1Line` refines the spec's
"split on newline, drop marker lines, rejoin with newline" byte-for-byte,
no line of its output contains the marker, and the marker-free input lines
appear among the output lines in the same relative order. -/
theorem removeCircleSha1Line_correct (x : List Nat) :
    removeCircleSha1Line x = sanitizeSpec x
    ∧ (∀ line ∈ splitOnByte newlineByte (removeCircleSha1Line x),
        containsSeq circleSha1Marker line = false)
    ∧ List.Sublist
        ((splitOnByte newlineByte x).filter
          (fun l => !(containsSeq circleSha1Marker l)))
        (splitOnByte newlineByte (removeCircleSha1Line x)) := by
  refine ⟨removeCircleSha1Line_eq_spec x, ?_, ?_⟩
  · intro line hline
    rw [sanitize_lines] at hline
    by_cases hn : (splitOnByte newlineByte x).filter
        (fun l => !(containsSeq circleSha1Marker l)) = []
    · rw [if_pos hn] at hline
      have hl : line = [] := by simpa using hline
      rw [hl]
      exact marker_not_in_empty
    · rw [if_neg hn] at hline
      have hp := (List.mem_filter.mp hline).2
      simpa using hp
  · rw [sanitize_lines]
    by_cases hn : (splitOnByte newlineByte x).filter
        (fun l => !(containsSeq circleSha1Marker l)) = []
    · rw [if_pos hn, hn]
      exact List.nil_sublist _
    · rw [if_neg hn]

/-- C7: the sanitizer is idempotent: applying `removeCircleSha1Line` twice
gives the same bytes as applying it once. -/
theorem removeCircleSha1Line_idempotent (x : List Nat) :
    removeCircleSha1Line (removeCircleSha1Line x) = removeCircleSha1Line x := by
  by_cases hn : (splitOnByte newlineByte x).filter
      (fun l => !(containsSeq circleSha1Marker l)) = []
  · have hx : removeCircleSha1Line x = [] := by
      rw [removeCircleSha1Line_eq_spec]
      unfold sanitizeSpec
      rw [hn]
      rfl
    rw [hx]
    decide
  · rw [removeCircleSha1Line_eq_spec (removeCircleSha1Line x)]
    unfold sanitizeSpec
    rw [sanitize_lines x, if_neg hn, List.filter_filter]
    simp only [Bool.and_self]
    rw [removeCircleSha1Line_eq_spec x]
    rfl

/-- Embeds the `project` struct of circleci.go (fields `VCS`, `Username`,
`RepoName` as decoded from `vcs_type` / `username` / `reponame`). -/
structure project where
  VCS : String
  Username : String
  RepoName : String
deriving DecidableEq, Repr

/-- Embeds the `build` struct (field `BuildNum` from `build_num`). -/
structure build where
  BuildNum : Int
deriving DecidableEq, Repr

/-- Embeds the `action` struct (fields `Index`, `OutputURL`). -/
structure action where
  Index : Int
  OutputURL : String
deriving DecidableEq, Repr

/-- Embeds the `buildStep` struct (fields `Name`, `Actions`). -/
structure buildStep where
  Name : String
  Actions : List action
deriving DecidableEq, Repr

/-- Errors an accessor call can produce: a transport failure of
`client.Do`, the `invalid credentials, status %d` error, or a JSON
decode failure. -/
inductive ApiError where
  | transport (msg : String)
  | invalidCredentials (status : Nat)
  | decodeError (msg : String)
deriving DecidableEq, Repr

/-- An error recorded in the aggregator by the project-task closure of
`Source.Chunks`, tagged as at its three `scanErrs.add` call sites: the
builds-listing wrap names the project, the steps-listing wrap names the
build number, the chunking wrap names the action. -/
inductive scanError where
  | buildsErr (p : project) (e : ApiError)
  | stepsErr (buildNum : Int) (e : ApiError)
  | actionErr (a : action) (e : ApiError)
deriving DecidableEq, Repr

/-- Embeds the CircleCI provenance metadata of an emitted chunk
(`source_metadatapb.CircleCI`). -/
structure CircleCIMeta where
  VcsType : String
  Username : String
  Repository : String
  BuildNumber : Int
  BuildStep : String
  Link : String
deriving DecidableEq, Repr

/-- Embeds `sources.Chunk` as populated by `chunkAction`. -/
structure Chunk where
  SourceType : String
  SourceName : String
  SourceID : Int
  Data : List Nat
  Meta : CircleCIMeta
  Verify : Bool
deriving DecidableEq, Repr

/-- Embeds the `Source` struct fields set by `Init` (the HTTP client and
the errgroup pool handle are runtime objects and carry no data beyond the
concurrency limit). -/
structure Source where
  name : String
  token : String
  sourceId : Int
  jobId : Int
  verify : Bool
  concurrencyLimit : Nat
deriving DecidableEq, Repr

/-- Oracle for the outcomes of the four network calls of a run: each field
gives the result the corresponding accessor returns (`Except.error` for a
transport/status/decode failure, `Except.ok` for a decoded success). -/
structure API where
  projectsRes : Except ApiError (List project)
  buildsRes : project → Except ApiError (List build)
  stepsRes : project → build → Except ApiError (List buildStep)
  fetchRes : action → Except ApiError (List Nat)

/-- Embeds `Source.chunkAction`: fetch the action's log body from its
`OutputURL`; on success build the chunk with sanitized data, fully
populated provenance metadata and the pipelines link, to be sent on the
channel; on failure return the error. -/
def chunkAction (s : Source) (api : API) (proj : project) (bld : build)
    (act : action) (stepName : String) : Except ApiError Chunk :=
  match api.fetchRes act with
  | .error e => .error e
  | .ok logOutput =>
    .ok
      { SourceType := "SOURCE_TYPE_CIRCLECI"
        SourceName := s.name
        SourceID := s.sourceId
        Data := removeCircleSha1Line logOutput
        Meta :=
          { VcsType := proj.VCS
            Username := proj.Username
            Repository := proj.RepoName
            BuildNumber := bld.BuildNum
            BuildStep := stepName
            Link := "https://app.circleci.com/pipelines/" ++ proj.VCS ++ "/"
              ++ proj.Username ++ "/" ++ proj.RepoName ++ "/"
              ++ toString bld.BuildNum }
        Verify := s.verify }

/-- The inner `for _, action := range step.Actions` loop of the project
task: chunk each action in order; at the first failure record one
`actionErr` and stop (the Go closure does `scanErrs.add(...); return nil`).
Returns the chunks sent before stopping and the recorded errors. -/
def runActions (s : Source) (api : API) (proj : project) (bld : build)
    (stepName : String) : List action → List Chunk × List scanError
  | [] => ([], [])
  | act :: rest =>
    match chunkAction s api proj bld act stepName with
    | .error e => ([], [.actionErr act e])
    | .ok c =>
      let res := runActions s api proj bld stepName rest
      (c :: res.1, res.2)

/-- The `for _, step := range buildSteps` loop: walk each step's actions in
order; a recorded error stops the remaining steps (the closure returned). -/
def runSteps (s : Source) (api : API) (proj : project) (bld : build) :
    List buildStep → List Chunk × List scanError
  | [] => ([], [])
  | st :: rest =>
    let res := runActions s api proj bld st.Name st.Actions
    match res.2 with
    | [] =>
      let res2 := runSteps s api proj bld rest
      (res.1 ++ res2.1, res2.2)
    | _ => res

/-- The `for _, bld := range builds` loop: list each build's steps; a
step-listing failure records one `stepsErr` and stops the project, and a
recorded error from deeper in the walk also stops the remaining builds. -/
def runBuilds (s : Source) (api : API) (proj : project) :
    List build → List Chunk × List scanError
  | [] => ([], [])
  | bld :: rest =>
    match api.stepsRes proj bld with
    | .error e => ([], [.stepsErr bld.BuildNum e])
    | .ok steps =>
      let res := runSteps s api proj bld steps
      match res.2 with
      | [] =>
        let res2 := runBuilds s api proj rest
        (res.1 ++ res2.1, res2.2)
      | _ => res

/-- The body of the per-project closure passed to `jobPool.Go`: list the
project's builds (recording one `buildsErr` and stopping on failure), then
walk them. Returns the chunks this task sent and the errors it recorded;
the closure itself always returns nil to the pool. -/
def projectTask (s : Source) (api : API) (proj : project) :
    List Chunk × List scanError :=
  match api.buildsRes proj with
  | .error e => ([], [.buildsErr proj e])
  | .ok builds => runBuilds s api proj builds

/-- Embeds `Source.Chunks`: list the projects; on failure return the
(wrapped) error having sent nothing; otherwise run one task per project,
wait for all of them, and return nil regardless of recorded errors.
The result is (returned error, chunks sent on the channel, errors recorded
in the `scanErrs` aggregator); concurrency only interleaves the order of
chunks across projects, which no claim here depends on, so the tasks are
modelled in listing order. -/
def Source.Chunks (s : Source) (api : API) :
    Option ApiError × List Chunk × List scanError :=
  match api.projectsRes with
  | .error e => (some e, [], [])
  | .ok projs =>
    let results := projs.map (fun p => projectTask s api p)
    (none, (results.map Prod.fst).flatten, (results.map Prod.snd).flatten)

theorem runActions_errs_le (s : Source) (api : API) (proj : project)
    (bld : build) (stepName : String) (l : List action) :
    ((runActions s api proj bld stepName l).2).length ≤ 1 := by
  induction l with
  | nil => simp [runActions]
  | cons act rest ih =>
    simp only [runActions]
    rcases chunkAction s api proj bld act stepName with e | c
    · simp
    · simpa using ih

theorem runSteps_errs_le (s : Source) (api : API) (proj : project)
    (bld : build) (l : List buildStep) :
    ((runSteps s api proj bld l).2).length ≤ 1 := by
  induction l with
  | nil => simp [runSteps]
  | cons st rest ih =>
    simp only [runSteps]
    rcases hr : (runActions s api proj bld st.Name st.Actions).2 with _ | ⟨e, es⟩
    · simpa using ih
    · have h := runActions_errs_le s api proj bld st.Name st.Actions
      simpa [hr] using h

theorem runBuilds_errs_le (s : Source) (api : API) (proj : project)
    (l : List build) : ((runBuilds s api proj l).2).length ≤ 1 := by
  induction l with
  | nil => simp [runBuilds]
  | cons bld rest ih =>
    simp only [runBuilds]
    rcases api.stepsRes proj bld with e | steps
    · simp
    · rcases hr : (runSteps s api proj bld steps).2 with _ | ⟨e, es⟩
      · simpa [hr] using ih
      · have h := runSteps_errs_le s api proj bld steps
        simpa [hr] using h

theorem projectTask_errs_le (s : Source) (api : API) (proj : project) :
    ((projectTask s api proj).2).length ≤ 1 := by
  simp only [projectTask]
  rcases api.buildsRes proj with e | builds
  · simp
  · exact runBuilds_errs_le s api proj builds

theorem runActions_error_cons (s : Source) (api : API) (proj : project)
    (bld : build) (stepName : String) (a : action) (post : List action)
    (e : ApiError) (he : chunkAction s api proj bld a stepName = .error e) :
    runActions s api proj bld stepName (a :: post)
      = ([], [scanError.actionErr a e]) := by
  simp [runActions, he]

theorem runActions_append (s : Source) (api : API) (proj : project)
    (bld : build) (stepName : String) (pre rest : List action)
    (h : (runActions s api proj bld stepName pre).2 = []) :
    runActions s api proj bld stepName (pre ++ rest)
      = ((runActions s api proj bld stepName pre).1
          ++ (runActions s api proj bld stepName rest).1,
         (runActions s api proj bld stepName rest).2) := by
  induction pre with
  | nil => simp [runActions]
  | cons a pre ih =>
    rcases hc : chunkAction s api proj bld a stepName with e | c
    · simp [runActions, hc] at h
    · simp only [runActions, hc] at h
      simp only [List.cons_append, runActions, hc, List.append_eq]
      rw [ih h]

theorem runSteps_stuck (s : Source) (api : API) (proj : project)
    (bld : build) (st : buildStep) (post : List buildStep) (e : scanError)
    (es : List scanError)
    (h : (runActions s api proj bld st.Name st.Actions).2 = e :: es) :
    runSteps s api proj bld (st :: post)
      = ((runActions s api proj bld st.Name st.Actions).1, e :: es) := by
  simp only [runSteps, h]
  rw [← h]

theorem runSteps_append (s : Source) (api : API) (proj : project)
    (bld : build) (pre rest : List buildStep)
    (h : (runSteps s api proj bld pre).2 = []) :
    runSteps s api proj bld (pre ++ rest)
      = ((runSteps s api proj bld pre).1 ++ (runSteps s api proj bld rest).1,
         (runSteps s api proj bld rest).2) := by
  induction pre with
  | nil => simp [runSteps]
  | cons st pre ih =>
    rcases ha : (runActions s api proj bld st.Name st.Actions).2
        with _ | ⟨e, es⟩
    · simp only [runSteps, ha] at h
      simp only [List.cons_append, runSteps, ha, List.append_eq]
      rw [ih h]
      simp
    · simp [runSteps, ha] at h

theorem runBuilds_steps_error (s : Source) (api : API) (proj : project)
    (bld : build) (post : List build) (e : ApiError)
    (h : api.stepsRes proj bld = .error e) :
    runBuilds s api proj (bld :: post)
      = ([], [scanError.stepsErr bld.BuildNum e]) := by
  simp [runBuilds, h]

theorem runBuilds_stuck (s : Source) (api : API) (proj : project)
    (bld : build) (post : List build) (steps : List buildStep)
    (e : scanError) (es : List scanError)
    (hs : api.stepsRes proj bld = .ok steps)
    (h : (runSteps s api proj bld steps).2 = e :: es) :
    runBuilds s api proj (bld :: post)
      = ((runSteps s api proj bld steps).1, e :: es) := by
  simp only [runBuilds, hs, h]
  rw [← h]

theorem runBuilds_append (s : Source) (api : API) (proj : project)
    (pre rest : List build)
    (h : (runBuilds s api proj pre).2 = []) :
    runBuilds s api proj (pre ++ rest)
      = ((runBuilds s api proj pre).1 ++ (runBuilds s api proj rest).1,
         (runBuilds s api proj rest).2) := by
  induction pre with
  | nil => simp [runBuilds]
  | cons bld pre ih =>
    rcases hb : api.stepsRes proj bld with e | steps
    · simp [runBuilds, hb] at h
    · rcases hs : (runSteps s api proj bld steps).2 with _ | ⟨e, es⟩
      · simp only [runBuilds, hb, hs] at h
        simp only [List.cons_append, runBuilds, hb, hs, List.append_eq]
        rw [ih h]
        simp
      · simp [runBuilds, hb, hs] at h

/-- C1: if the initial project listing fails, `Chunks` returns that error
and sends no chunk; if it succeeds, `Chunks` returns nil no matter what
happens in the per-project walks. -/
theorem chunks_error_boundary (s : Source) (api : API) :
    (∀ e, api.projectsRes = .error e →
      (Source.Chunks s api).1 = some e ∧ (Source.Chunks s api).2.1 = [])
    ∧ (∀ ps, api.projectsRes = .ok ps → (Source.Chunks s api).1 = none) := by
  constructor
  · intro e he
    simp [Source.Chunks, he]
  · intro ps hps
    simp [Source.Chunks, hps]

/-- C2: after a successful project listing the run decomposes per project
(the chunks sent and the errors recorded are the concatenations of each
task's own, so succeeding projects still emit all their chunks), every task
records at most one error, and the first failure inside a task — a
builds-listing failure, a step-listing failure at any build, or a
chunkAction failure at any action of any step of any build — records
exactly that one tagged error while only the chunks of the successfully
walked prefix are sent and all remaining builds, steps and actions of the
project are skipped. -/
theorem chunks_failure_isolation (s : Source) (api : API) (ps : List project)
    (h : api.projectsRes = .ok ps) :
    (Source.Chunks s api).2.1
        = (ps.map (fun p => (projectTask s api p).1)).flatten
    ∧ (Source.Chunks s api).2.2
        = (ps.map (fun p => (projectTask s api p).2)).flatten
    ∧ (∀ p, ((projectTask s api p).2).length ≤ 1)
    ∧ (∀ p e, api.buildsRes p = .error e →
        projectTask s api p = ([], [scanError.buildsErr p e]))
    ∧ (∀ p preB bld postB e, api.buildsRes p = .ok (preB ++ bld :: postB) →
        (runBuilds s api p preB).2 = [] →
        api.stepsRes p bld = .error e →
        projectTask s api p
          = ((runBuilds s api p preB).1,
             [scanError.stepsErr bld.BuildNum e]))
    ∧ (∀ p preB bld postB preS st postS preA a postA e,
        api.buildsRes p = .ok (preB ++ bld :: postB) →
        (runBuilds s api p preB).2 = [] →
        api.stepsRes p bld = .ok (preS ++ st :: postS) →
        (runSteps s api p bld preS).2 = [] →
        st.Actions = preA ++ a :: postA →
        (runActions s api p bld st.Name preA).2 = [] →
        chunkAction s api p bld a st.Name = .error e →
        projectTask s api p
          = ((runBuilds s api p preB).1 ++ ((runSteps s api p bld preS).1
              ++ (runActions s api p bld st.Name preA).1),
             [scanError.actionErr a e])) := by
  refine ⟨?_, ?_, ?_, ?_, ?_, ?_⟩
  · simp [Source.Chunks, h, List.map_map, Function.comp_def]
  · simp [Source.Chunks, h, List.map_map, Function.comp_def]
  · intro p
    exact projectTask_errs_le s api p
  · intro p e he
    simp [projectTask, he]
  · intro p preB bld postB e hb hpre hs
    simp only [projectTask, hb]
    rw [runBuilds_append s api p preB (bld :: postB) hpre,
      runBuilds_steps_error s api p bld postB e hs]
    simp
  · intro p preB bld postB preS st postS preA a postA e hb hpreB hs hpreS
      hact hpreA he
    have hra : runActions s api p bld st.Name st.Actions
        = ((runActions s api p bld st.Name preA).1,
           [scanError.actionErr a e]) := by
      rw [hact, runActions_append s api p bld st.Name preA (a :: postA) hpreA,
        runActions_error_cons s api p bld st.Name a postA e he]
      simp
    have hss : runSteps s api p bld (st :: postS)
        = ((runActions s api p bld st.Name preA).1,
           [scanError.actionErr a e]) := by
      rw [runSteps_stuck s api p bld st postS (scanError.actionErr a e) []
        (by rw [hra]), hra]
    have hsteps : runSteps s api p bld (preS ++ st :: postS)
        = ((runSteps s api p bld preS).1
            ++ (runActions s api p bld st.Name preA).1,
           [scanError.actionErr a e]) := by
      rw [runSteps_append s api p bld preS (st :: postS) hpreS, hss]
    simp only [projectTask, hb]
    rw [runBuilds_append s api p preB (bld :: postB) hpreB,
      runBuilds_stuck s api p bld postB (preS ++ st :: postS)
        (scanError.actionErr a e) [] hs (by rw [hsteps]), hsteps]

/-- C6: every chunk `chunkAction` produces for the channel carries
provenance metadata fully populated from the project, build and step that
produced it, and its link is the pipelines URL built from them. -/
theorem chunkAction_provenance (s : Source) (api : API) (proj : project)
    (bld : build) (act : action) (stepName : String) (c : Chunk)
    (h : chunkAction s api proj bld act stepName = .ok c) :
    c.Meta.VcsType = proj.VCS ∧ c.Meta.Username = proj.Username
    ∧ c.Meta.Repository = proj.RepoName ∧ c.Meta.BuildNumber = bld.BuildNum
    ∧ c.Meta.BuildStep = stepName
    ∧ c.Meta.Link = "https://app.circleci.com/pipelines/" ++ proj.VCS ++ "/"
        ++ proj.Username ++ "/" ++ proj.RepoName ++ "/"
        ++ toString bld.BuildNum := by
  unfold chunkAction at h
  rcases hf : api.fetchRes act with e | logOutput <;> rw [hf] at h
  · exact absurd h (by simp)
  · simp only [Except.ok.injEq] at h
    subst h
    exact ⟨rfl, rfl, rfl, rfl, rfl, rfl⟩

/-- A concrete source configuration for the witnesses. -/
def srcW : Source :=
  { name := "circleci", token := "tok", sourceId := 1, jobId := 2,
    verify := true, concurrencyLimit := 4 }

def projA : project := { VCS := "github", Username := "acme", RepoName := "api" }

def projB : project := { VCS := "github", Username := "acme", RepoName := "web" }

def bldW : build := { BuildNum := 42 }

def actW : action := { Index := 0, OutputURL := "https://example.com/log0" }

/-- The spec's example log body, `line1\nCIRCLE_SHA1=abcd\nline3`. -/
def logBytes : List Nat :=
  "line1\nCIRCLE_SHA1=abcd\nline3".data.map Char.toNat

/-- Oracle where the project listing itself fails. -/
def apiFailListing : API :=
  { projectsRes := .error (.transport "conn refused")
    buildsRes := fun _ => .ok []
    stepsRes := fun _ _ => .ok []
    fetchRes := fun _ => .ok [] }

/-- Oracle where the listing succeeds, project A's walk succeeds fully and
project B's builds-listing call fails. -/
def apiOkListing : API :=
  { projectsRes := .ok [projA, projB]
    buildsRes := fun p =>
      if p = projA then .ok [bldW] else .error (.transport "timeout")
    stepsRes := fun _ _ => .ok [{ Name := "test", Actions := [actW] }]
    fetchRes := fun _ => .ok logBytes }

theorem chunks_error_boundary_witness :
    ((Source.Chunks srcW apiFailListing).1
        = some (ApiError.transport "conn refused")
      ∧ (Source.Chunks srcW apiFailListing).2.1 = [])
    ∧ (Source.Chunks srcW apiOkListing).1 = none :=
  ⟨(chunks_error_boundary srcW apiFailListing).1
      (ApiError.transport "conn refused") rfl,
    (chunks_error_boundary srcW apiOkListing).2 [projA, projB] rfl⟩

def bld1 : build := { BuildNum := 1 }

def bld3 : build := { BuildNum := 3 }

def actOk : action := { Index := 0, OutputURL := "https://example.com/ok" }

def actBad : action := { Index := 1, OutputURL := "https://example.com/bad" }

def stOk : buildStep := { Name := "setup", Actions := [actOk] }

def stBad : buildStep := { Name := "test", Actions := [actOk, actBad, actOk] }

/-- Oracle where project A's first build succeeds and the step listing of
its second build (42) fails, leaving a third build to be skipped. -/
def apiStepFail : API :=
  { projectsRes := .ok [projA]
    buildsRes := fun _ => .ok [bld1, bldW, bld3]
    stepsRes := fun _ b =>
      if b = bldW then .error (.decodeError "bad json") else .ok [stOk]
    fetchRes := fun _ => .ok logBytes }

/-- Oracle where everything succeeds except the log fetch of one action in
the middle of the second step of the second build of project A. -/
def apiLeafFail : API :=
  { projectsRes := .ok [projA]
    buildsRes := fun _ => .ok [bld1, bldW, bld3]
    stepsRes := fun _ b =>
      if b = bldW then .ok [stOk, stBad, stOk] else .ok [stOk]
    fetchRes := fun a =>
      if a = actBad then .error (.transport "eof") else .ok logBytes }

theorem chunks_failure_isolation_witness :
    (Source.Chunks srcW apiOkListing).2.2
        = [scanError.buildsErr projB (ApiError.transport "timeout")]
    ∧ projectTask srcW apiOkListing projB
        = ([], [scanError.buildsErr projB (ApiError.transport "timeout")])
    ∧ (projectTask srcW apiStepFail projA).2
        = [scanError.stepsErr 42 (ApiError.decodeError "bad json")]
    ∧ (projectTask srcW apiLeafFail projA).2
        = [scanError.actionErr actBad (ApiError.transport "eof")] := by
  have h := chunks_failure_isolation srcW apiOkListing [projA, projB] rfl
  have h2 := chunks_failure_isolation srcW apiStepFail [projA] rfl
  have h3 := chunks_failure_isolation srcW apiLeafFail [projA] rfl
  refine ⟨?_, h.2.2.2.1 projB (ApiError.transport "timeout") rfl, ?_, ?_⟩
  · rw [h.2.1]
    rfl
  · rw [h2.2.2.2.2.1 projA [bld1] bldW [bld3]
      (ApiError.decodeError "bad json") rfl rfl rfl]
    rfl
  · rw [h3.2.2.2.2.2 projA [bld1] bldW [bld3] [stOk] stBad [stOk] [actOk]
      actBad [actOk] (ApiError.transport "eof") rfl rfl rfl rfl rfl rfl rfl]

/-- The chunk `chunkAction` produces for project A, build 42, step test. -/
def chunkW : Chunk :=
  { SourceType := "SOURCE_TYPE_CIRCLECI"
    SourceName := "circleci"
    SourceID := 1
    Data := removeCircleSha1Line logBytes
    Meta :=
      { VcsType := "github", Username := "acme", Repository := "api",
        BuildNumber := 42, BuildStep := "test",
        Link := "https://app.circleci.com/pipelines/github/acme/api/42" }
    Verify := true }

theorem chunkAction_provenance_witness :
    chunkW.Meta.VcsType = projA.VCS ∧ chunkW.Meta.Username = projA.Username
    ∧ chunkW.Meta.Repository = projA.RepoName
    ∧ chunkW.Meta.BuildNumber = bldW.BuildNum
    ∧ chunkW.Meta.BuildStep = "test"
    ∧ chunkW.Meta.Link = "https://app.circleci.com/pipelines/" ++ projA.VCS
        ++ "/" ++ projA.Username ++ "/" ++ projA.RepoName ++ "/"
        ++ toString bldW.BuildNum :=
  chunkAction_provenance srcW apiOkListing projA bldW actW "test" chunkW rfl

/-- Embeds the net/http request an accessor builds before `client.Do`:
its method, its URL, and the headers set with `req.Header.Set`. -/
structure Request where
  method : String
  url : String
  headers : List (String × String)
deriving DecidableEq, Repr

/-- The `baseURL` constant of circleci.go. -/
def baseURL : String := "https://circleci.com/api/v1.1/"

/-- The request `Source.projects` builds: GET `<baseURL>projects` with the
Circle-Token and Accept headers. -/
def projectsRequest (s : Source) : Request :=
  { method := "GET"
    url := baseURL ++ "projects"
    headers := [("Circle-Token", s.token), ("Accept", "application/json")] }

/-- The request `Source.buildsForProject` builds: GET
`<baseURL>project/<vcs>/<username>/<reponame>` with both headers. -/
def buildsForProjectRequest (s : Source) (proj : project) : Request :=
  { method := "GET"
    url := baseURL ++ "project/" ++ proj.VCS ++ "/" ++ proj.Username ++ "/"
      ++ proj.RepoName
    headers := [("Circle-Token", s.token), ("Accept", "application/json")] }

/-- The request `Source.stepsForBuild` builds: GET
`<baseURL>project/<vcs>/<username>/<reponame>/<buildNum>` with both
headers. -/
def stepsForBuildRequest (s : Source) (proj : project) (bld : build) :
    Request :=
  { method := "GET"
    url := baseURL ++ "project/" ++ proj.VCS ++ "/" ++ proj.Username ++ "/"
      ++ proj.RepoName ++ "/" ++ toString bld.BuildNum
    headers := [("Circle-Token", s.token), ("Accept", "application/json")] }

/-- The request `Source.chunkAction` builds for the raw log fetch: a GET of
the action's `OutputURL` on which no header is ever set. -/
def chunkActionRequest (act : action) : Request :=
  { method := "GET", url := act.OutputURL, headers := [] }

/-- C4 counterexample: the raw log fetch of `chunkAction` carries no
headers at all, in particular no Circle-Token bearer header. -/
theorem chunkActionRequest_headerless :
    (chunkActionRequest actW).headers = []
    ∧ (∀ v, ("Circle-Token", v) ∉ (chunkActionRequest actW).headers) := by
  exact ⟨rfl, by intro v h; simp [chunkActionRequest] at h⟩

/-- C4 (amended): each of the three listing requests attaches both the
Circle-Token credential header and the Accept structured-data header, but
the raw log fetch request of `chunkAction` attaches no header. -/
theorem accessor_request_headers (s : Source) (proj : project) (bld : build)
    (act : action) :
    (("Circle-Token", s.token) ∈ (projectsRequest s).headers
      ∧ ("Accept", "application/json") ∈ (projectsRequest s).headers)
    ∧ (("Circle-Token", s.token) ∈ (buildsForProjectRequest s proj).headers
      ∧ ("Accept", "application/json")
          ∈ (buildsForProjectRequest s proj).headers)
    ∧ (("Circle-Token", s.token) ∈ (stepsForBuildRequest s proj bld).headers
      ∧ ("Accept", "application/json")
          ∈ (stepsForBuildRequest s proj bld).headers)
    ∧ (chunkActionRequest act).headers = [] := by
  simp [projectsRequest, buildsForProjectRequest, stepsForBuildRequest,
    chunkActionRequest]

/-- Outcome of a network call as seen by the response-handling code: the
status code of the response and the result of decoding its body. -/
structure HTTPResponse (α : Type) where
  statusCode : Nat
  decoded : Except String α

/-- The response handling of `Source.projects`: a status strictly between
399 and 500 yields the `invalid credentials` error before any decode;
otherwise the decoded project list or a decode error. -/
def projectsHandle (res : HTTPResponse (List project)) :
    Except ApiError (List project) :=
  if 399 < res.statusCode ∧ res.statusCode < 500 then
    .error (.invalidCredentials res.statusCode)
  else
    match res.decoded with
    | .error m => .error (.decodeError m)
    | .ok ps => .ok ps

/-- The response handling of `Source.buildsForProject`: the body is decoded
unconditionally, with no status-code check of any kind. -/
def buildsForProjectHandle (res : HTTPResponse (List build)) :
    Except ApiError (List build) :=
  match res.decoded with
  | .error m => .error (.decodeError m)
  | .ok bs => .ok bs

/-- The response handling of `Source.stepsForBuild`: the body is decoded
into the steps of the build response, with no status-code check. -/
def stepsForBuildHandle (res : HTTPResponse (List buildStep)) :
    Except ApiError (List buildStep) :=
  match res.decoded with
  | .error m => .error (.decodeError m)
  | .ok steps => .ok steps

/-- C5 counterexample: on a 401 response with a decodable body the builds
and steps listings succeed instead of failing with the authentication
error, while the project listing does fail with it. -/
theorem listing_4xx_not_auth :
    buildsForProjectHandle { statusCode := 401, decoded := .ok [bldW] }
        = .ok [bldW]
    ∧ stepsForBuildHandle { statusCode := 401, decoded := .ok [] } = .ok []
    ∧ projectsHandle { statusCode := 401, decoded := .ok [] }
        = .error (.invalidCredentials 401) := by
  refine ⟨rfl, rfl, ?_⟩
  simp [projectsHandle]

/-- C5 (amended): only the project-listing call maps a 4xx status to the
authentication error; the builds and steps listings ignore the status code
entirely, their outcome depending only on the decode result. -/
theorem listing_status_handling (res : HTTPResponse (List project))
    (c1 c2 : Nat) (db : Except String (List build))
    (ds : Except String (List buildStep))
    (h1 : 399 < res.statusCode) (h2 : res.statusCode < 500) :
    projectsHandle res = .error (.invalidCredentials res.statusCode)
    ∧ buildsForProjectHandle { statusCode := c1, decoded := db }
        = buildsForProjectHandle { statusCode := c2, decoded := db }
    ∧ stepsForBuildHandle { statusCode := c1, decoded := ds }
        = stepsForBuildHandle { statusCode := c2, decoded := ds } := by
  refine ⟨?_, rfl, rfl⟩
  simp [projectsHandle, h1, h2]

theorem listing_status_handling_witness :
    projectsHandle { statusCode := 403, decoded := .ok [] }
        = .error (.invalidCredentials 403)
    ∧ buildsForProjectHandle { statusCode := 200, decoded := .ok [bldW] }
        = buildsForProjectHandle { statusCode := 404, decoded := .ok [bldW] }
    ∧ stepsForBuildHandle { statusCode := 200, decoded := .ok [] }
        = stepsForBuildHandle { statusCode := 404, decoded := .ok [] } :=
  listing_status_handling { statusCode := 403, decoded := .ok [] } 200 404
    (.ok [bldW]) (.ok []) (by norm_num) (by norm_num)

/-- Embeds the `scanErrors` aggregator: the `count` field (a uint64
incremented atomically, kept modulo 2^64) and the mutex-guarded `errors`
slice. -/
structure scanErrors (E : Type) where
  count : Nat
  errors : List E

/-- Embeds `newScanErrors`: zero count, empty slice (the capacity hint
passed to `make` has no observable effect). -/
def newScanErrors (E : Type) (projects : Nat) : scanErrors E :=
  { count := 0, errors := [] }

/-- Embeds `scanErrors.add`: increment the counter with uint64 arithmetic
and append the error to the slice. -/
def scanErrors.add {E : Type} (s : scanErrors E) (e : E) : scanErrors E :=
  { count := (s.count + 1) % 2 ^ 64, errors := s.errors ++ [e] }

theorem scanErrors_foldl_errors {E : Type} (l : List E) (s : scanErrors E) :
    (l.foldl scanErrors.add s).errors = s.errors ++ l := by
  induction l generalizing s with
  | nil => simp
  | cons e rest ih =>
    rw [List.foldl_cons, ih]
    simp [scanErrors.add]

theorem scanErrors_foldl_count {E : Type} (l : List E) (s : scanErrors E)
    (h : s.count < 2 ^ 64) :
    (l.foldl scanErrors.add s).count = (s.count + l.length) % 2 ^ 64 := by
  induction l generalizing s with
  | nil =>
    simp only [List.foldl_nil, List.length_nil, Nat.add_zero]
    exact (Nat.mod_eq_of_lt h).symm
  | cons e rest ih =>
    have h2 : (scanErrors.add s e).count < 2 ^ 64 :=
      Nat.mod_lt _ (by norm_num)
    rw [List.foldl_cons, ih _ h2]
    show ((s.count + 1) % 2 ^ 64 + rest.length) % 2 ^ 64
      = (s.count + (e :: rest).length) % 2 ^ 64
    rw [Nat.mod_add_mod]
    congr 1
    simp
    omega

/-- C9: any sequence of `add` calls starting from `newScanErrors` leaves
the errors slice holding exactly the added errors in order (none lost or
duplicated) and the counter equal to their number as a uint64 — hence
exactly their number whenever fewer than 2^64 errors were added. -/
theorem scanErrors_invariant {E : Type} (l : List E) (n : Nat) :
    (l.foldl scanErrors.add (newScanErrors E n)).errors = l
    ∧ (l.foldl scanErrors.add (newScanErrors E n)).count
        = l.length % 2 ^ 64
    ∧ (l.length < 2 ^ 64 →
        (l.foldl scanErrors.add (newScanErrors E n)).count = l.length) := by
  have he := scanErrors_foldl_errors l (newScanErrors E n)
  have hc := scanErrors_foldl_count l (newScanErrors E n) (by simp [newScanErrors])
  refine ⟨by simpa [newScanErrors] using he, by simpa [newScanErrors] using hc, ?_⟩
  intro hl
  rw [show (l.foldl scanErrors.add (newScanErrors E n)).count
      = l.length % 2 ^ 64 from by simpa [newScanErrors] using hc]
  exact Nat.mod_eq_of_lt hl

theorem scanErrors_invariant_witness :
    ([0, 1, 2].foldl scanErrors.add (newScanErrors Nat 5)).errors = [0, 1, 2]
    ∧ ([0, 1, 2].foldl scanErrors.add (newScanErrors Nat 5)).count = 3 := by
  have h := scanErrors_invariant [0, 1, 2] 5
  exact ⟨h.1, (h.2.2 (by decide)).trans rfl⟩

/-- The credential variants of the unmarshalled CircleCI connection: the
token oneof case, or an absent/unrecognized credential. -/
inductive credential where
  | token (t : String)
  | unset
deriving DecidableEq, Repr

/-- The unmarshalled CircleCI connection message. -/
structure CircleCIConn where
  credential : credential
deriving DecidableEq, Repr

/-- Embeds `Source.Init`: set the scalar fields and the pool's concurrency
limit, fail if unmarshalling the connection fails, and set the token only
when the credential is the token case — any other credential is silently
accepted. -/
def Source.Init (s : Source) (name : String) (jobId sourceId : Int)
    (verify : Bool) (connection : Except String CircleCIConn)
    (concurrency : Nat) : Except String Source :=
  let s1 : Source :=
    { s with
      name := name
      sourceId := sourceId
      jobId := jobId
      verify := verify
      concurrencyLimit := concurrency }
  match connection with
  | .error e => .error ("error unmarshalling connection: " ++ e)
  | .ok conn =>
    match conn.credential with
    | .token t => .ok { s1 with token := t }
    | .unset => .ok s1

/-- C10: a successfully unmarshalled connection whose credential is not the
token case makes `Init` return success with the stored token untouched —
empty for a fresh source — raising no error for the missing credential. -/
theorem init_non_token_credential (s : Source) (name : String)
    (jobId sourceId : Int) (verify : Bool) (conn : CircleCIConn)
    (concurrency : Nat) (hc : conn.credential = credential.unset)
    (ht : s.token = "") :
    Source.Init s name jobId sourceId verify (.ok conn) concurrency
      = .ok { s with
          name := name
          sourceId := sourceId
          jobId := jobId
          verify := verify
          concurrencyLimit := concurrency }
    ∧ ({ s with
        name := name
        sourceId := sourceId
        jobId := jobId
        verify := verify
        concurrencyLimit := concurrency } : Source).token
      = "" := by
  constructor
  · simp only [Source.Init, hc]
  · exact ht

/-- A fresh zero-valued source, as the CLI constructs before `Init`. -/
def s0 : Source :=
  { name := "", token := "", sourceId := 0, jobId := 0, verify := false,
    concurrencyLimit := 0 }

/-- A connection with no token credential. -/
def connUnset : CircleCIConn := { credential := credential.unset }

theorem init_non_token_credential_witness :
    Source.Init s0 "circleci" 2 1 true (.ok connUnset) 4
      = .ok { name := "circleci"
              token := ""
              sourceId := 1
              jobId := 2
              verify := true
              concurrencyLimit := 4 }
    ∧ ({ name := "circleci"
         token := ""
         sourceId := 1
         jobId := 2
         verify := true
         concurrencyLimit := 4 } : Source).token = "" := by
  have h := init_non_token_credential s0 "circleci" 2 1 true connUnset 4 rfl rfl
  exact ⟨h.1, h.2⟩
